import Mathlib

set_option maxHeartbeats 1000000

/-!
Shallow embedding of the recommendation service of the MERN-Movies-App
repository (src/recommend/app.py, src/recommend/manage_mapping.py,
src/recommend/generate_mapping.py), together with proofs about the
identifier-mapping store, the LightGCN inference path, the top-k scorer
and the load/reload lifecycle.

Python floats are modelled as rationals; Python dicts as association
lists looked up by first matching key (insertion order, faithful for
the key-distinct dicts the code builds); raised exceptions as Option
results.
-/

/-- Python dict lookup on an association list: first matching key. -/
def dget {α β : Type} [DecidableEq α] (k : α) : List (α × β) → Option β
  | [] => none
  | (a, b) :: rest => if a = k then some b else dget k rest

/-- Python enumerate, starting the counter at n. -/
def enumFromQ {α : Type} (n : Nat) : List α → List (Nat × α)
  | [] => []
  | a :: l => (n, a) :: enumFromQ (n + 1) l

/-- The pickled mapping store of generate_mapping.py / manage_mapping.py:
user_mapping, movie_mapping (external id to index) and
reverse_movie_mapping (index to external id). -/
structure Mappings where
  user_mapping : List (String × Int)
  movie_mapping : List (String × Nat)
  reverse_movie_mapping : List (Nat × String)
deriving DecidableEq

/-- The enumerate loop of generate_mappings over the distinct movie ids:
movie_mapping[str(movie_id)] = idx and reverse_movie_mapping[idx] = str(movie_id),
built here in one pass starting at index idx. -/
def build_movie_maps : List String → Nat → List (String × Nat) × List (Nat × String)
  | [], _ => ([], [])
  | m :: rest, idx =>
    let p := build_movie_maps rest (idx + 1)
    ((m, idx) :: p.1, (idx, m) :: p.2)

/-- The enumerate loop of generate_mappings over the distinct user ids. -/
def build_user_map : List String → Nat → List (String × Int)
  | [], _ => []
  | u :: rest, idx => (u, (idx : Int)) :: build_user_map rest (idx + 1)

/-- generate_mapping.generate_mappings: users and movies are the sorted lists of
distinct id strings harvested from the interactions collection. -/
def generate_mappings (users movies : List String) : Mappings :=
  { user_mapping := build_user_map users 0
    movie_mapping := (build_movie_maps movies 0).1
    reverse_movie_mapping := (build_movie_maps movies 0).2 }

/-- max(mappings[user_mapping].values()): none on an empty dict, where
Python max raises ValueError. -/
def valuesMax : List (String × Int) → Option Int
  | [] => none
  | (_, v) :: rest =>
    match valuesMax rest with
    | none => some v
    | some m => some (max v m)

/-- Outcome of manage_mapping.add_user: the resulting store, whether the
already-present warning was printed, whether the clamp warning was printed,
and whether save_mappings was called (persisting and writing a backup). -/
structure AddResult where
  mappings : Mappings
  existsWarning : Bool
  clampWarning : Bool
  saved : Bool
deriving DecidableEq

/-- manage_mapping.add_user. none models the uncaught ValueError raised by
max() when the user mapping is empty. -/
def add_user (m : Mappings) (mongo_id : String) (user_index : Int) : Option AddResult :=
  if (dget mongo_id m.user_mapping).isSome then
    some ⟨m, true, false, false⟩
  else
    match valuesMax m.user_mapping with
    | none => none
    | some max_index =>
      if user_index > max_index then
        some ⟨{ m with user_mapping := m.user_mapping ++ [(mongo_id, max_index)] },
              false, true, true⟩
      else
        some ⟨{ m with user_mapping := m.user_mapping ++ [(mongo_id, user_index)] },
              false, false, true⟩

/-- The loop of manage_mapping.add_bulk, with i the enumerate counter
(it advances on skipped identifiers too); the modulus is the length of the
user mapping at the time of each insertion. none models the
ZeroDivisionError of % 0 on an empty mapping. -/
def add_bulk_go (um : List (String × Int)) (start : Int) (i : Nat) :
    List String → Option (List (String × Int))
  | [] => some um
  | mid :: rest =>
    if (dget mid um).isSome then add_bulk_go um start (i + 1) rest
    else if um.length = 0 then none
    else add_bulk_go (um ++ [(mid, (start + (i : Int)) % (um.length : Int))]) start (i + 1) rest

/-- manage_mapping.add_bulk. -/
def add_bulk (m : Mappings) (mongo_ids : List String) (start_index : Int) : Option Mappings :=
  (add_bulk_go m.user_mapping start_index 0 mongo_ids).map
    (fun um => { m with user_mapping := um })

/-- One successful mutation of the mapping store through the maintenance tool. -/
inductive MappingStep : Mappings → Mappings → Prop where
  | addOne (m : Mappings) (mid : String) (idx : Int) (r : AddResult) :
      add_user m mid idx = some r → MappingStep m r.mappings
  | addBulk (m : Mappings) (ids : List String) (start : Int) (m2 : Mappings) :
      add_bulk m ids start = some m2 → MappingStep m m2

/- ## Embedding model (app.py, class ImprovedLightGCN) -/

def vecScale (c : ℚ) (v : List ℚ) : List ℚ := v.map (fun x => c * x)

def vecAdd (u v : List ℚ) : List ℚ := List.zipWith (fun a b => a + b) u v

def dot (u v : List ℚ) : ℚ := (List.zipWith (fun a b => a * b) u v).sum

def sumVecs (d : Nat) : List (List ℚ) → List ℚ
  | [] => List.replicate d 0
  | v :: vs => vecAdd v (sumVecs d vs)

/-- Inference-time state of ImprovedLightGCN: embedding tables, optional
propagation graph (a sparse matrix over the combined user+item index space,
modelled densely by rows), layer count and aggregation mode.
layer_attention is modelled as the already softmax-normalised per-layer
weights (the softmax itself is transcendental; no claim touches the
attention branch). -/
structure ImprovedLightGCN where
  num_users : Nat
  num_items : Nat
  embedding_dim : Nat
  n_layers : Nat
  use_layer_attention : Bool
  layer_attention : List ℚ
  user_embedding : List (List ℚ)
  item_embedding : List (List ℚ)
  Graph : Option (List (List ℚ))
deriving DecidableEq

/-- torch.sparse.mm(Graph, all_emb): row i of the result is the
row-i-weighted sum of the embedding rows. -/
def spmm (g : List (List ℚ)) (d : Nat) (e : List (List ℚ)) : List (List ℚ) :=
  g.map (fun row => sumVecs d (List.zipWith vecScale row e))

/-- The propagation loop of computer: collects the n_layers+1 layer
snapshots, layer 0 being the raw input. -/
def collectLayers (g : List (List ℚ)) (d : Nat) : Nat → List (List ℚ) → List (List (List ℚ))
  | 0, e => [e]
  | n + 1, e => e :: collectLayers g d n (spmm g d e)

def tableAdd (t u : List (List ℚ)) : List (List ℚ) := List.zipWith vecAdd t u

def tableSum : List (List (List ℚ)) → List (List ℚ)
  | [] => []
  | [t] => t
  | t :: ts => tableAdd t (tableSum ts)

/-- torch.mean over the stacked layer snapshots. -/
def aggMean (embs : List (List (List ℚ))) : List (List ℚ) :=
  (tableSum embs).map (vecScale (1 / (embs.length : ℚ)))

/-- The attention aggregation: weighted sum of the layer snapshots by the
normalised per-layer weights. -/
def aggAttention (w : List ℚ) (embs : List (List (List ℚ))) : List (List ℚ) :=
  tableSum (List.zipWith (fun c t => t.map (vecScale c)) w embs)

/-- ImprovedLightGCN.computer: with no propagation graph set, returns the raw
embedding tables; otherwise propagates n_layers hops, aggregates the
n_layers+1 snapshots (mean or attention) and splits at num_users. -/
def computer (m : ImprovedLightGCN) : List (List ℚ) × List (List ℚ) :=
  match m.Graph with
  | none => (m.user_embedding, m.item_embedding)
  | some g =>
    let all_emb := m.user_embedding ++ m.item_embedding
    let embs := collectLayers g m.embedding_dim m.n_layers all_emb
    let final_emb :=
      if m.use_layer_attention then aggAttention m.layer_attention embs else aggMean embs
    (final_emb.take m.num_users, (final_emb.drop m.num_users).take m.num_items)

/- ## Scorer (app.py, get_recommendations lines 238-252) -/

/-- The key of a stable ascending sort on the (index, score) pairs:
ascending score, equal scores resolved by ascending index. Used below as
one concrete, executable sort of the pairs; np.argsort in general
guarantees only isArgsortOutput, not this particular tie order. -/
def lexLe (a b : Nat × ℚ) : Prop := a.2 < b.2 ∨ (a.2 = b.2 ∧ a.1 ≤ b.1)

instance (a b : Nat × ℚ) : Decidable (lexLe a b) := by
  unfold lexLe; infer_instance

def insPair (p : Nat × ℚ) : List (Nat × ℚ) → List (Nat × ℚ)
  | [] => [p]
  | q :: qs => if lexLe p q then p :: q :: qs else q :: insPair p qs

def sortPairs : List (Nat × ℚ) → List (Nat × ℚ)
  | [] => []
  | p :: ps => insPair p (sortPairs ps)

/-- np.argsort(scores) as one executable model. np.argsort with the default
kind (quicksort/introsort) is documented as NOT stable, so among equal
scores the index order is unspecified; any ascending-by-score permutation
of the indices is an admissible output (isArgsortOutput below). This
executable model uses the stable ascending sort, which coincides with
numpy's actual behavior on arrays small enough for its insertion-sort
fallback; universal ordering theorems must not rely on its tie order and
are stated over isArgsortOutput instead. -/
def argsort (scores : List ℚ) : List Nat :=
  (sortPairs (enumFromQ 0 scores)).map Prod.fst

/-- Python slice l[:k], including the negative-k case. -/
def pyTake {α : Type} (l : List α) (k : Int) : List α :=
  if 0 ≤ k then l.take k.toNat else l.take (l.length - (-k).toNat)

/-- np.argsort(scores)[::-1][:top_k]. -/
def top_indices (scores : List ℚ) (top_k : Int) : List Nat :=
  pyTake (argsort scores).reverse top_k

/-- Whether the reverse-mapping value at idx is truthy in Python
(present and not the empty string): the `if movie_id:` guard. -/
def truthyRev (rmm : List (Nat × String)) (idx : Nat) : Bool :=
  match dget idx rmm with
  | none => false
  | some s => decide (¬ s = "")

/-- The result-building loop: indices whose reverse-mapping entry is absent
(or falsy) are skipped, others become (movieId, score) entries. -/
def build_recs (rmm : List (Nat × String)) (scores : List ℚ) (tops : List Nat) :
    List (String × ℚ) :=
  tops.filterMap (fun idx =>
    match dget idx rmm with
    | none => none
    | some movie_id =>
      if movie_id = "" then none else some (movie_id, scores.getD idx 0))

/- ## Service endpoints (app.py) -/

structure RecommendationRequest where
  user_id : String
  top_k : Int
deriving DecidableEq

/-- A response of the /recommend endpoint: either a RecommendationResponse
body or an HTTPException. -/
inductive RecResult where
  | ok (user_id : String) (recommendations : List (String × ℚ))
  | httpError (code : Nat) (detail : String)
deriving DecidableEq

/-- The process-wide globals of app.py. -/
structure AppState where
  model : Option ImprovedLightGCN
  user_mapping : List (String × Int)
  movie_mapping : List (String × Nat)
  reverse_movie_mapping : List (Nat × String)
deriving DecidableEq

/-- app.get_popular_movies: the cold-start placeholder, an empty list under
the literal user id "unknown". -/
def get_popular_movies (_top_k : Int) : RecResult := RecResult.ok "unknown" []

/-- Python / torch indexing with negative indices counting from the end;
none models the out-of-range IndexError. -/
def pyIndex {α : Type} (l : List α) (i : Int) : Option α :=
  if 0 ≤ i then l.get? i.toNat
  else if 0 ≤ i + (l.length : Int) then l.get? (i + (l.length : Int)).toNat
  else none

/-- app.get_recommendations. The cache protocol is modelled transparently:
cached_users/cached_items are the (pure, deterministic) value of computer.
The try block's failures surface as the 500 error response. -/
def get_recommendations (st : AppState) (req : RecommendationRequest) : RecResult :=
  match st.model with
  | none => RecResult.httpError 500 "Model not loaded"
  | some m =>
    match dget req.user_id st.user_mapping with
    | none => get_popular_movies req.top_k
    | some user_idx =>
      match pyIndex (computer m).1 user_idx with
      | none => RecResult.httpError 500 "Error generating recommendations"
      | some user_emb =>
        let scores := (computer m).2.map (fun item => dot user_emb item)
        RecResult.ok req.user_id
          (build_recs st.reverse_movie_mapping scores (top_indices scores req.top_k))

/-- The two pickled blobs of load_model; none models a StorageIOFailure or
deserialization failure of that blob. -/
structure MappingBlob where
  user_mapping : List (String × Int)
  movie_mapping : List (String × Nat)
  reverse_movie_mapping : List (Nat × String)
deriving DecidableEq

/-- app.load_model, sequenced as the source is: the global model is
assigned as soon as the model blob loads, the three mapping globals only
after the mapping blob loads; the Bool is whether the function raised. -/
def load_model (st : AppState) (modelBlob : Option ImprovedLightGCN)
    (mappingBlob : Option MappingBlob) : AppState × Bool :=
  match modelBlob with
  | none => (st, true)
  | some m =>
    match mappingBlob with
    | none => ({ st with model := some m }, true)
    | some b =>
      ({ model := some m
         user_mapping := b.user_mapping
         movie_mapping := b.movie_mapping
         reverse_movie_mapping := b.reverse_movie_mapping }, false)

inductive ReloadResponse where
  | success
  | errorResp (code : Nat)
deriving DecidableEq

/-- app.reload_model: calls load_model, converting a raise into an HTTP 500
response; the state is whatever load_model left behind. -/
def reload_model (st : AppState) (mb : Option ImprovedLightGCN)
    (mpb : Option MappingBlob) : AppState × ReloadResponse :=
  let r := load_model st mb mpb
  (r.1, if r.2 then ReloadResponse.errorResp 500 else ReloadResponse.success)

/-- The ordering the spec claims for the scorer output: strictly descending
score, ties between equal scores broken by ascending item index. -/
def specTieAscOrdered (scores : List ℚ) (l : List Nat) : Prop :=
  List.Pairwise
    (fun i j => scores.getD j 0 < scores.getD i 0 ∨
      (scores.getD i 0 = scores.getD j 0 ∧ i < j)) l

/-- What np.argsort(scores) guarantees for any sort kind: the output pairs
are some permutation of the enumerated (index, score) pairs arranged in
ascending score order; the order among equal scores is unspecified (the
default quicksort is documented as not stable). -/
def isArgsortOutput (scores : List ℚ) (pairs : List (Nat × ℚ)) : Prop :=
  List.Perm pairs (enumFromQ 0 scores) ∧
  pairs.Pairwise (fun a b : Nat × ℚ => a.2 ≤ b.2)

/- ## Helper lemmas -/

theorem dget_append_of_none {α β : Type} [DecidableEq α] (k : α) (l1 l2 : List (α × β))
    (h : dget k l1 = none) : dget k (l1 ++ l2) = dget k l2 := by
  induction l1 with
  | nil => rfl
  | cons p rest ih =>
    obtain ⟨a, b⟩ := p
    by_cases hak : a = k
    · simp [dget, hak] at h
    · simp only [dget, hak, if_neg, List.cons_append] at h ⊢
      exact ih h

/- ## Concrete fixtures used by witnesses and counterexamples -/

def tinyModel : ImprovedLightGCN :=
  { num_users := 1, num_items := 1, embedding_dim := 1, n_layers := 0
    use_layer_attention := false, layer_attention := []
    user_embedding := [[1]], item_embedding := [[1]], Graph := none }

def newModel : ImprovedLightGCN :=
  { num_users := 1, num_items := 1, embedding_dim := 1, n_layers := 0
    use_layer_attention := false, layer_attention := []
    user_embedding := [[2]], item_embedding := [[2]], Graph := none }

def stOld : AppState :=
  { model := some tinyModel
    user_mapping := [("u0", 0)]
    movie_mapping := [("m0", 0)]
    reverse_movie_mapping := [(0, "m0")] }

def fiveUsers : Mappings :=
  { user_mapping := [("u0", 0), ("u1", 1), ("u2", 2), ("u3", 3), ("u4", 4)]
    movie_mapping := [("m0", 0)]
    reverse_movie_mapping := [(0, "m0")] }

/- ## C4: computer with no propagation graph -/

/-- C4: for every loaded model state in which no propagation graph is set,
computer returns the raw user and item embedding tables unchanged,
regardless of the configured layer count n_layers. -/
theorem computer_no_graph (m : ImprovedLightGCN) (h : m.Graph = none) :
    computer m = (m.user_embedding, m.item_embedding) := by
  unfold computer
  rw [h]

/-- Witness for C4 at a concrete graphless model with n_layers = 3. -/
theorem computer_no_graph_witness :
    ({ num_users := 1, num_items := 1, embedding_dim := 2, n_layers := 3
       use_layer_attention := false, layer_attention := []
       user_embedding := [[1, 0]], item_embedding := [[0, 1]]
       Graph := none } : ImprovedLightGCN).Graph = none ∧
    computer { num_users := 1, num_items := 1, embedding_dim := 2, n_layers := 3
               use_layer_attention := false, layer_attention := []
               user_embedding := [[1, 0]], item_embedding := [[0, 1]]
               Graph := none } = ([[1, 0]], [[0, 1]]) :=
  ⟨rfl, computer_no_graph _ rfl⟩

/- ## C10: the model-loaded check precedes the unknown-user check -/

/-- C10: in get_recommendations the model-loaded check precedes the
unknown-user check: for every request whose user_id is absent from
user_mapping, if no model is loaded the endpoint answers the HTTP 500
"Model not loaded" error instead of the empty cold-start result. -/
theorem model_check_precedes_user_check (st : AppState) (req : RecommendationRequest)
    (hm : st.model = none) (hu : dget req.user_id st.user_mapping = none) :
    get_recommendations st req = RecResult.httpError 500 "Model not loaded" := by
  unfold get_recommendations
  rw [hm]

/-- Witness for C10: no model loaded, user "u1" unmapped. -/
theorem model_check_precedes_user_check_witness :
    (AppState.mk none [] [] []).model = none ∧
    dget "u1" (AppState.mk none [] [] []).user_mapping = none ∧
    get_recommendations (AppState.mk none [] [] []) ⟨"u1", 10⟩ =
      RecResult.httpError 500 "Model not loaded" :=
  ⟨rfl, rfl, model_check_precedes_user_check _ ⟨"u1", 10⟩ rfl rfl⟩

/- ## C1: cold-start response for an unknown user -/

/-- Counterexample to C1 as stated: with a model loaded and "u1" absent from
the user mapping, the endpoint does answer an empty list without error, but
the user_id field of the response is the literal "unknown", not the
requested "u1". -/
theorem recommend_unknown_user_cex :
    get_recommendations stOld ⟨"u1", 10⟩ = RecResult.ok "unknown" [] ∧
    ¬ ("unknown" = "u1") := by
  constructor
  · rfl
  · decide

/-- C1 amended: for every request whose user_id is absent from the user
mapping (and a model is loaded), get_recommendations returns the ok response
with an empty recommendations list and never an error, but its user_id field
is the constant "unknown" placeholder of get_popular_movies. -/
theorem recommend_unknown_user_amended (st : AppState) (req : RecommendationRequest)
    (m : ImprovedLightGCN) (hm : st.model = some m)
    (hu : dget req.user_id st.user_mapping = none) :
    get_recommendations st req = RecResult.ok "unknown" [] := by
  unfold get_recommendations
  rw [hm, hu]
  rfl

/-- Witness for the amended C1 at a concrete state and request. -/
theorem recommend_unknown_user_amended_witness :
    stOld.model = some tinyModel ∧
    dget "u1" stOld.user_mapping = none ∧
    get_recommendations stOld ⟨"u1", 10⟩ = RecResult.ok "unknown" [] :=
  ⟨rfl, by decide, recommend_unknown_user_amended stOld ⟨"u1", 10⟩ tinyModel rfl (by decide)⟩

/- ## C2: state after a partially failed reload -/

/-- Counterexample to C2 as stated: starting from a fully loaded old state,
a reload whose model blob loads but whose mapping blob fails reports the
HTTP 500 error, yet the resulting in-memory state differs from the previous
state: the model global has already been replaced. -/
theorem reload_partial_failure_cex :
    (reload_model stOld (some newModel) none).2 = ReloadResponse.errorResp 500 ∧
    ¬ ((reload_model stOld (some newModel) none).1 = stOld) ∧
    (reload_model stOld (some newModel) none).1.model = some newModel ∧
    (reload_model stOld (some newModel) none).1.user_mapping = stOld.user_mapping := by
  refine ⟨rfl, ?_, rfl, rfl⟩
  decide

/-- C2 amended: a failed reload leaves the three mapping globals unchanged,
and when the model blob itself fails nothing changes at all; but when the
model blob loads and the mapping blob then fails, the model global has
already been replaced by the new model, so the process can serve a
half-loaded mixture of new model and old mappings. -/
theorem load_model_failure_state (st : AppState) (mb : Option ImprovedLightGCN)
    (mpb : Option MappingBlob) (h : (load_model st mb mpb).2 = true) :
    (load_model st mb mpb).1.user_mapping = st.user_mapping ∧
    (load_model st mb mpb).1.movie_mapping = st.movie_mapping ∧
    (load_model st mb mpb).1.reverse_movie_mapping = st.reverse_movie_mapping ∧
    (mb = none → (load_model st mb mpb).1 = st) ∧
    (∀ m, mb = some m → (load_model st mb mpb).1.model = some m) := by
  cases mb with
  | none =>
    refine ⟨rfl, rfl, rfl, fun _ => rfl, fun m hm => ?_⟩
    exact absurd hm (by simp)
  | some m =>
    cases mpb with
    | none =>
      refine ⟨rfl, rfl, rfl, fun hc => absurd hc (by simp), fun m2 hm2 => ?_⟩
      rw [Option.some_inj] at hm2
      subst hm2
      rfl
    | some b => cases h

/-- Witness for the amended C2 at the concrete partially failing reload. -/
theorem load_model_failure_state_witness :
    (load_model stOld (some newModel) none).2 = true ∧
    (load_model stOld (some newModel) none).1.user_mapping = stOld.user_mapping ∧
    (load_model stOld (some newModel) none).1.model = some newModel :=
  ⟨rfl, (load_model_failure_state stOld (some newModel) none rfl).1,
    (load_model_failure_state stOld (some newModel) none rfl).2.2.2.2 newModel rfl⟩

/- ## C8: add_user on an already-present identifier -/

/-- C8: for every mapping state and identifier already present in
user_mapping, add_user is an idempotent no-op with the already-exists
warning: the store is returned unchanged, save_mappings (and thus the
persisted file and its backup) is not touched, for any requested index. -/
theorem add_user_existing_noop (m : Mappings) (mid : String) (idx j : Int)
    (h : dget mid m.user_mapping = some j) :
    add_user m mid idx = some ⟨m, true, false, false⟩ := by
  unfold add_user
  rw [h]
  rfl

/-- Witness for C8: re-adding "u2" with any index leaves fiveUsers intact. -/
theorem add_user_existing_noop_witness :
    dget "u2" fiveUsers.user_mapping = some 2 ∧
    add_user fiveUsers "u2" 99 = some ⟨fiveUsers, true, false, false⟩ :=
  ⟨by decide, add_user_existing_noop fiveUsers "u2" 99 2 (by decide)⟩

/- ## C9: add_user clamps an oversized index -/

/-- C9: for every mapping with a maximum mapped user index and every new
identifier, an index above that maximum is clamped down to the maximum
(with the clamp warning) rather than rejected, and an index not above the
maximum is used as given. -/
theorem add_user_clamp (m : Mappings) (mid : String) (idx mx : Int)
    (habs : dget mid m.user_mapping = none)
    (hmax : valuesMax m.user_mapping = some mx) :
    (mx < idx → add_user m mid idx =
      some ⟨{ m with user_mapping := m.user_mapping ++ [(mid, mx)] }, false, true, true⟩) ∧
    (idx ≤ mx → add_user m mid idx =
      some ⟨{ m with user_mapping := m.user_mapping ++ [(mid, idx)] }, false, false, true⟩) := by
  constructor <;> intro hcmp <;> unfold add_user <;> rw [habs] <;>
    simp only [Option.isSome_none, Bool.false_eq_true, if_false, hmax]
  · rw [if_pos hcmp]
  · rw [if_neg (not_lt.mpr hcmp)]

/-- Witness for C9: against fiveUsers (max index 4), requesting index 10 for
a new user "z" inserts it at 4, and requesting index 2 for "w" inserts it
at 2. -/
theorem add_user_clamp_witness :
    dget "z" fiveUsers.user_mapping = none ∧
    valuesMax fiveUsers.user_mapping = some 4 ∧
    add_user fiveUsers "z" 10 =
      some ⟨{ fiveUsers with user_mapping := fiveUsers.user_mapping ++ [("z", 4)] },
            false, true, true⟩ ∧
    add_user fiveUsers "w" 2 =
      some ⟨{ fiveUsers with user_mapping := fiveUsers.user_mapping ++ [("w", 2)] },
            false, false, true⟩ :=
  ⟨by decide, by decide,
    (add_user_clamp fiveUsers "z" 10 4 (by decide) (by decide)).1 (by decide),
    (add_user_clamp fiveUsers "w" 2 4 (by decide) (by decide)).2 (by decide)⟩

/- ## C7: add_bulk index assignment -/

theorem enumFromQ_shift {α : Type} (l : List α) (n : Nat) :
    enumFromQ (n + 1) l = (enumFromQ n l).map (fun p => (p.1 + 1, p.2)) := by
  induction l generalizing n with
  | nil => rfl
  | cons a rest ih =>
    simp only [enumFromQ, List.map_cons]
    exact congrArg _ (ih (n + 1))

theorem add_bulk_go_fresh (ids : List String) (um : List (String × Int)) (start : Int) (i : Nat)
    (hne : um ≠ []) (hnd : ids.Nodup) (hfresh : ∀ mid ∈ ids, dget mid um = none) :
    add_bulk_go um start i ids =
      some (um ++ (enumFromQ 0 ids).map
        (fun p => (p.2, (start + (i : Int) + (p.1 : Int)) % ((um.length : Int) + (p.1 : Int))))) := by
  induction ids generalizing um i with
  | nil => simp [add_bulk_go, enumFromQ]
  | cons mid rest ih =>
    have hmid : dget mid um = none := hfresh mid (List.mem_cons_self mid rest)
    have hlen : um.length ≠ 0 := fun h => hne (List.length_eq_zero.mp h)
    rw [List.nodup_cons] at hnd
    unfold add_bulk_go
    rw [hmid]
    simp only [Option.isSome_none, Bool.false_eq_true, if_false, if_neg hlen]
    have hfresh2 : ∀ m2 ∈ rest, dget m2 (um ++ [(mid, (start + (i : Int)) % (um.length : Int))]) = none := by
      intro m2 hm2
      rw [dget_append_of_none m2 um _ (hfresh m2 (List.mem_cons_of_mem mid hm2))]
      have : ¬ mid = m2 := fun h => hnd.1 (h ▸ hm2)
      simp [dget, this]
    rw [ih (um ++ [(mid, (start + (i : Int)) % (um.length : Int))]) (i + 1)
      (by simp) hnd.2 hfresh2]
    congr 1
    rw [List.append_assoc, List.singleton_append]
    congr 1
    show _ = (enumFromQ 0 (mid :: rest)).map _
    simp only [enumFromQ, List.map_cons]
    congr 1
    · simp
    · rw [enumFromQ_shift, List.map_map]
      apply List.map_congr_left
      intro p _
      simp only [Function.comp_apply, List.length_append, List.length_cons, List.length_nil]
      push_cast
      ring_nf

theorem add_bulk_go_all_present (ids : List String) (um : List (String × Int)) (start : Int)
    (i : Nat) (hpres : ∀ mid ∈ ids, (dget mid um).isSome) :
    add_bulk_go um start i ids = some um := by
  induction ids generalizing i with
  | nil => rfl
  | cons mid rest ih =>
    unfold add_bulk_go
    rw [if_pos (hpres mid (List.mem_cons_self mid rest))]
    exact ih (i + 1) (fun m2 hm2 => hpres m2 (List.mem_cons_of_mem mid hm2))

/-- C7: add_bulk assigns each new identifier the index
(start_index + position) mod current user count — position being the
enumerate counter over the whole input list and the count being the size of
the user mapping at the moment of that insertion (it grows by one per
inserted identifier) — while identifiers already present are skipped and
leave the store unchanged. In particular, against a mapping of size 5 with
start_index 0, three new identifiers get indices 0, 1, 2 (see the witness). -/
theorem add_bulk_assigns_mod_indices :
    (∀ (m : Mappings) (ids : List String) (start : Int),
      m.user_mapping ≠ [] → ids.Nodup →
      (∀ mid ∈ ids, dget mid m.user_mapping = none) →
      add_bulk m ids start = some { m with user_mapping :=
        (m.user_mapping ++ (enumFromQ 0 ids).map
          (fun p => (p.2, (start + (p.1 : Int)) % ((m.user_mapping.length : Int) + (p.1 : Int))))) }) ∧
    (∀ (m : Mappings) (ids : List String) (start : Int),
      (∀ mid ∈ ids, (dget mid m.user_mapping).isSome) →
      add_bulk m ids start = some m) := by
  constructor
  · intro m ids start hne hnd hfresh
    unfold add_bulk
    rw [add_bulk_go_fresh ids m.user_mapping start 0 hne hnd hfresh]
    simp only [Option.map_some']
    congr 3
    apply List.map_congr_left
    intro p _
    simp
  · intro m ids start hpres
    unfold add_bulk
    rw [add_bulk_go_all_present ids m.user_mapping start 0 hpres]
    rfl

/-- Witness for C7: the spec scenario — a mapping of size 5, start_index 0,
new identifiers "a", "b", "c" get indices 0, 1, 2 — plus the skip case. -/
theorem add_bulk_assigns_mod_indices_witness :
    fiveUsers.user_mapping ≠ [] ∧
    (["a", "b", "c"] : List String).Nodup ∧
    (∀ mid ∈ (["a", "b", "c"] : List String), dget mid fiveUsers.user_mapping = none) ∧
    add_bulk fiveUsers ["a", "b", "c"] 0 = some { fiveUsers with user_mapping :=
      fiveUsers.user_mapping ++ [("a", 0), ("b", 1), ("c", 2)] } ∧
    add_bulk fiveUsers ["u0", "u3"] 0 = some fiveUsers :=
  ⟨by decide, by decide, by decide,
    ((add_bulk_assigns_mod_indices.1 fiveUsers ["a", "b", "c"] 0 (by decide) (by decide)
      (by decide)).trans (by decide)),
    add_bulk_assigns_mod_indices.2 fiveUsers ["u0", "u3"] 0 (by decide)⟩

/- ## C3: item mapping and reverse mapping are exact inverses -/

theorem build_movie_maps_fst_bounds (ms : List String) (n : Nat) (p : String × Nat)
    (hp : p ∈ (build_movie_maps ms n).1) : n ≤ p.2 := by
  induction ms generalizing n with
  | nil => cases hp
  | cons m rest ih =>
    rcases List.mem_cons.mp hp with h | h
    · subst h; exact le_refl n
    · exact Nat.le_of_succ_le (ih (n + 1) h)

theorem build_movie_maps_snd_bounds (ms : List String) (n : Nat) (q : Nat × String)
    (hq : q ∈ (build_movie_maps ms n).2) : n ≤ q.1 := by
  induction ms generalizing n with
  | nil => cases hq
  | cons m rest ih =>
    rcases List.mem_cons.mp hq with h | h
    · subst h; exact le_refl n
    · exact Nat.le_of_succ_le (ih (n + 1) h)

theorem build_movie_maps_dget (ms : List String) (n : Nat) (p : String × Nat)
    (hp : p ∈ (build_movie_maps ms n).1) :
    dget p.2 (build_movie_maps ms n).2 = some p.1 := by
  induction ms generalizing n with
  | nil => cases hp
  | cons m rest ih =>
    rcases List.mem_cons.mp hp with h | h
    · subst h
      simp [build_movie_maps, dget]
    · have hb : n + 1 ≤ p.2 := build_movie_maps_fst_bounds rest (n + 1) p h
      have hne : ¬ n = p.2 := fun hc => by omega
      simp only [build_movie_maps, dget, hne, if_neg]
      exact ih (n + 1) h

theorem build_movie_maps_keys_nodup (ms : List String) (n : Nat) :
    ((build_movie_maps ms n).2.map Prod.fst).Nodup := by
  induction ms generalizing n with
  | nil => exact List.nodup_nil
  | cons m rest ih =>
    simp only [build_movie_maps, List.map_cons]
    refine List.nodup_cons.mpr ⟨?_, ih (n + 1)⟩
    intro hmem
    rcases List.mem_map.mp hmem with ⟨q, hq, hfst⟩
    have := build_movie_maps_snd_bounds rest (n + 1) q hq
    omega

/-- Every successful maintenance-tool mutation leaves the two item mappings
untouched: add_user and add_bulk only write the user mapping. -/
theorem MappingStep.movie_fields {a b : Mappings} (h : MappingStep a b) :
    b.movie_mapping = a.movie_mapping ∧
    b.reverse_movie_mapping = a.reverse_movie_mapping := by
  cases h with
  | addOne mid idx r hr =>
    unfold add_user at hr
    by_cases hpres : (dget mid a.user_mapping).isSome
    · rw [if_pos hpres, Option.some_inj] at hr
      rw [← hr]
      exact ⟨rfl, rfl⟩
    · rw [if_neg hpres] at hr
      cases hmax : valuesMax a.user_mapping with
      | none => rw [hmax] at hr; cases hr
      | some mx =>
        rw [hmax] at hr
        dsimp only at hr
        by_cases hgt : idx > mx
        · rw [if_pos hgt, Option.some_inj] at hr
          rw [← hr]
          exact ⟨rfl, rfl⟩
        · rw [if_neg hgt, Option.some_inj] at hr
          rw [← hr]
          exact ⟨rfl, rfl⟩
  | addBulk ids start m2 hb =>
    unfold add_bulk at hb
    cases hgo : add_bulk_go a.user_mapping start 0 ids with
    | none => rw [hgo] at hb; cases hb
    | some um =>
      rw [hgo, Option.map_some', Option.some_inj] at hb
      rw [← hb]
      exact ⟨rfl, rfl⟩

/-- C3: in every mapping state reachable from a freshly generated mapping by
any sequence of add_user and add_bulk operations, movie_mapping and
reverse_movie_mapping are exact inverses: every (ext_id, idx) pair of the
item mapping has reverse_movie_mapping[idx] = ext_id, and the reverse keys
are pairwise distinct, so every mapped item index has exactly one reverse
entry. The movies list is assumed duplicate-free, as the distinct-query
harvesting guarantees; under that assumption the association-list model
coincides with the Python dicts. -/
theorem mapping_inverse_invariant (users movies : List String) (m : Mappings)
    (hnd : movies.Nodup)
    (hr : Relation.ReflTransGen MappingStep (generate_mappings users movies) m) :
    (∀ p ∈ m.movie_mapping, dget p.2 m.reverse_movie_mapping = some p.1) ∧
    (m.reverse_movie_mapping.map Prod.fst).Nodup := by
  induction hr with
  | refl =>
    exact ⟨fun p hp => build_movie_maps_dget movies 0 p hp,
      build_movie_maps_keys_nodup movies 0⟩
  | tail _hsteps hstep ih =>
    obtain ⟨hmm, hrmm⟩ := hstep.movie_fields
    rw [hmm, hrmm]
    exact ih

/-- Witness for C3: a concrete generated mapping mutated by one add_user and
one add_bulk still satisfies the inverse invariant. -/
theorem mapping_inverse_invariant_witness :
    (["m0", "m1"] : List String).Nodup ∧
    (∀ p ∈ (generate_mappings ["u0"] ["m0", "m1"]).movie_mapping,
      dget p.2 (generate_mappings ["u0"] ["m0", "m1"]).reverse_movie_mapping = some p.1) ∧
    ((generate_mappings ["u0"] ["m0", "m1"]).reverse_movie_mapping.map Prod.fst).Nodup :=
  ⟨by decide,
    (mapping_inverse_invariant ["u0"] ["m0", "m1"] _ (by decide) Relation.ReflTransGen.refl).1,
    (mapping_inverse_invariant ["u0"] ["m0", "m1"] _ (by decide) Relation.ReflTransGen.refl).2⟩

/- ## Scorer ordering: sort lemmas -/

theorem lexLe_of_not_lexLe {a b : Nat × ℚ} (h : ¬ lexLe a b) : lexLe b a := by
  unfold lexLe at h ⊢
  rcases lt_trichotomy b.2 a.2 with h1 | h1 | h1
  · exact Or.inl h1
  · refine Or.inr ⟨h1, ?_⟩
    rcases Nat.le_total a.1 b.1 with h2 | h2
    · exact absurd (Or.inr ⟨h1.symm, h2⟩) h
    · exact h2
  · exact absurd (Or.inl h1) h

theorem lexLe_trans {a b c : Nat × ℚ} (hab : lexLe a b) (hbc : lexLe b c) : lexLe a c := by
  unfold lexLe at hab hbc ⊢
  rcases hab with h1 | ⟨h1, h1n⟩
  · rcases hbc with h2 | ⟨h2, _⟩
    · exact Or.inl (lt_trans h1 h2)
    · exact Or.inl (h2 ▸ h1)
  · rcases hbc with h2 | ⟨h2, h2n⟩
    · exact Or.inl (h1 ▸ h2)
    · exact Or.inr ⟨h1.trans h2, h1n.trans h2n⟩

theorem insPair_perm (p : Nat × ℚ) (l : List (Nat × ℚ)) :
    List.Perm (insPair p l) (p :: l) := by
  induction l with
  | nil => exact List.Perm.refl _
  | cons q qs ih =>
    unfold insPair
    by_cases h : lexLe p q
    · rw [if_pos h]
    · rw [if_neg h]
      exact (ih.cons q).trans (List.Perm.swap p q qs)

theorem sortPairs_perm (l : List (Nat × ℚ)) : List.Perm (sortPairs l) l := by
  induction l with
  | nil => exact List.Perm.refl _
  | cons p ps ih =>
    exact (insPair_perm p (sortPairs ps)).trans (ih.cons p)

theorem insPair_pairwise (p : Nat × ℚ) (l : List (Nat × ℚ))
    (h : l.Pairwise lexLe) : (insPair p l).Pairwise lexLe := by
  induction l with
  | nil => exact List.pairwise_singleton _ _
  | cons q qs ih =>
    rw [List.pairwise_cons] at h
    unfold insPair
    by_cases hpq : lexLe p q
    · rw [if_pos hpq]
      refine List.pairwise_cons.mpr ⟨?_, List.pairwise_cons.mpr h⟩
      intro x hx
      rcases List.mem_cons.mp hx with hxq | hxqs
      · exact hxq ▸ hpq
      · exact lexLe_trans hpq (h.1 x hxqs)
    · rw [if_neg hpq]
      refine List.pairwise_cons.mpr ⟨?_, ih h.2⟩
      intro x hx
      rcases List.mem_cons.mp ((insPair_perm p qs).mem_iff.mp hx) with hxp | hxqs
      · exact hxp ▸ lexLe_of_not_lexLe hpq
      · exact h.1 x hxqs

theorem sortPairs_pairwise (l : List (Nat × ℚ)) : (sortPairs l).Pairwise lexLe := by
  induction l with
  | nil => exact List.Pairwise.nil
  | cons p ps ih => exact insPair_pairwise p (sortPairs ps) ih

/- ## enumerate lemmas -/

theorem enumFromQ_length {α : Type} (l : List α) (n : Nat) :
    (enumFromQ n l).length = l.length := by
  induction l generalizing n with
  | nil => rfl
  | cons a rest ih =>
    simp only [enumFromQ, List.length_cons]
    rw [ih (n + 1)]

theorem enumFromQ_mem_spec (l : List ℚ) (n : Nat) (p : Nat × ℚ)
    (hp : p ∈ enumFromQ n l) : n ≤ p.1 ∧ l.getD (p.1 - n) 0 = p.2 := by
  induction l generalizing n with
  | nil => cases hp
  | cons a rest ih =>
    rcases List.mem_cons.mp hp with h | h
    · subst h
      exact ⟨le_refl n, by simp⟩
    · obtain ⟨h1, h2⟩ := ih (n + 1) h
      refine ⟨Nat.le_of_succ_le h1, ?_⟩
      have : p.1 - n = (p.1 - (n + 1)) + 1 := by omega
      rw [this]
      simpa using h2

theorem enumFromQ_fst_pairwise_ne (l : List ℚ) (n : Nat) :
    (enumFromQ n l).Pairwise (fun a b : Nat × ℚ => ¬ a.1 = b.1) := by
  induction l generalizing n with
  | nil => exact List.Pairwise.nil
  | cons a rest ih =>
    refine List.pairwise_cons.mpr ⟨?_, ih (n + 1)⟩
    intro x hx
    have := (enumFromQ_mem_spec rest (n + 1) x hx).1
    omega

/- ## pyTake lemmas -/

theorem pyTake_sublist {α : Type} (l : List α) (k : Int) : (pyTake l k).Sublist l := by
  unfold pyTake
  by_cases h : 0 ≤ k
  · rw [if_pos h]
    exact List.take_sublist _ l
  · rw [if_neg h]
    exact List.take_sublist _ l

theorem pyTake_of_nonneg {α : Type} (l : List α) (k : Int) (h : 0 ≤ k) :
    pyTake l k = l.take k.toNat := by
  unfold pyTake
  rw [if_pos h]

theorem pyTake_map {α β : Type} (f : α → β) (l : List α) (k : Int) :
    pyTake (l.map f) k = (pyTake l k).map f := by
  unfold pyTake
  rw [List.length_map]
  by_cases h : 0 ≤ k
  · rw [if_pos h, if_pos h, List.map_take]
  · rw [if_neg h, if_neg h, List.map_take]

/- ## C5: the order of the scorer output -/

/-- The executable stable sort is one admissible np.argsort output. -/
theorem sortPairs_enum_isArgsortOutput (scores : List ℚ) :
    isArgsortOutput scores (sortPairs (enumFromQ 0 scores)) := by
  refine ⟨sortPairs_perm _, (sortPairs_pairwise _).imp ?_⟩
  intro a b h
  rcases h with h | ⟨h, _⟩
  · exact le_of_lt h
  · exact le_of_eq h

/-- C5 amended: the top list is ordered by non-increasing score for every
tie order np.argsort may produce — any ascending-by-score permutation of
the enumerated pairs, reversed and truncated, yields non-increasing
scores — and in particular top_indices (the executable model) is ordered by
non-increasing score. No particular tie-break among equal scores is
guaranteed, since np.argsort's default sort is not stable. -/
theorem top_indices_ordering (scores : List ℚ) (k : Int) :
    (∀ pairs : List (Nat × ℚ), isArgsortOutput scores pairs →
      List.Pairwise (fun i j => scores.getD j 0 ≤ scores.getD i 0)
        ((pyTake pairs.reverse k).map Prod.fst)) ∧
    List.Pairwise (fun i j => scores.getD j 0 ≤ scores.getD i 0) (top_indices scores k) := by
  have hgen : ∀ pairs : List (Nat × ℚ), isArgsortOutput scores pairs →
      List.Pairwise (fun i j => scores.getD j 0 ≤ scores.getD i 0)
        ((pyTake pairs.reverse k).map Prod.fst) := by
    intro pairs h
    obtain ⟨hperm, hsort⟩ := h
    rw [List.pairwise_map]
    have hrev : pairs.reverse.Pairwise (fun a b : Nat × ℚ => b.2 ≤ a.2) :=
      List.pairwise_reverse.mpr hsort
    have htake := hrev.sublist (pyTake_sublist _ k)
    refine htake.imp_of_mem ?_
    intro p q hp hq hpq
    have hpmem : p ∈ enumFromQ 0 scores :=
      hperm.mem_iff.mp (List.mem_reverse.mp ((pyTake_sublist _ k).subset hp))
    have hqmem : q ∈ enumFromQ 0 scores :=
      hperm.mem_iff.mp (List.mem_reverse.mp ((pyTake_sublist _ k).subset hq))
    have hpv : scores.getD p.1 0 = p.2 := by
      have := (enumFromQ_mem_spec scores 0 p hpmem).2
      simpa using this
    have hqv : scores.getD q.1 0 = q.2 := by
      have := (enumFromQ_mem_spec scores 0 q hqmem).2
      simpa using this
    rw [hpv, hqv]
    exact hpq
  refine ⟨hgen, ?_⟩
  unfold top_indices argsort
  rw [← List.map_reverse, pyTake_map]
  exact hgen (sortPairs (enumFromQ 0 scores)) (sortPairs_enum_isArgsortOutput scores)

/-- Witness for the amended C5: a concrete admissible argsort output for the
scores [1, 3, 2] (the ascending arrangement [(0,1), (2,2), (1,3)]), whose
reversed truncation has non-increasing scores. -/
theorem top_indices_ordering_witness :
    isArgsortOutput [(1 : ℚ), 3, 2] [(0, 1), (2, 2), (1, 3)] ∧
    List.Pairwise (fun i j => [(1 : ℚ), 3, 2].getD j 0 ≤ [(1 : ℚ), 3, 2].getD i 0)
      ((pyTake ([((0 : Nat), (1 : ℚ)), (2, 2), (1, 3)]).reverse 2).map Prod.fst) :=
  ⟨⟨by decide, by decide⟩,
    (top_indices_ordering [(1 : ℚ), 3, 2] 2).1 [(0, 1), (2, 2), (1, 3)]
      ⟨by decide, by decide⟩⟩

/-- Counterexample to C5 as stated: on the score vector [5, 5] (a tie) with
top_k = 2, the top list is [1, 0] — the tie comes out by descending item
index, violating the claimed stable-by-ascending-index order. (Arrays this
small are sorted by numpy's stable insertion-sort fallback, for which the
executable model is exact, so this trace is the program's real behavior.) -/
theorem scorer_tie_order_cex :
    top_indices [(5 : ℚ), 5] 2 = [1, 0] ∧
    ¬ specTieAscOrdered [(5 : ℚ), 5] (top_indices [(5 : ℚ), 5] 2) := by
  have h : top_indices [(5 : ℚ), 5] 2 = [1, 0] := by rfl
  refine ⟨h, ?_⟩
  unfold specTieAscOrdered
  rw [h]
  intro hp
  rw [List.pairwise_cons] at hp
  have h10 := hp.1 0 (List.mem_singleton.mpr rfl)
  rcases h10 with h1 | ⟨_, h3⟩
  · have : ([(5 : ℚ), 5].getD 0 0) = 5 := rfl
    have h5 : ([(5 : ℚ), 5].getD 1 0) = 5 := rfl
    rw [this, h5] at h1
    exact absurd h1 (lt_irrefl 5)
  · omega

/- ## C6: length bounds and silent skipping in the scorer output -/

theorem build_recs_length_eq_countP (rmm : List (Nat × String)) (scores : List ℚ)
    (tops : List Nat) :
    (build_recs rmm scores tops).length = tops.countP (truthyRev rmm) := by
  induction tops with
  | nil => rfl
  | cons t ts ih =>
    unfold build_recs at ih ⊢
    rw [List.filterMap_cons, List.countP_cons]
    cases hdg : dget t rmm with
    | none =>
      have ht : truthyRev rmm t = false := by simp [truthyRev, hdg]
      simp only [hdg, ht]
      rw [ih]
      simp
    | some s =>
      by_cases hs : s = ""
      · subst hs
        have ht : truthyRev rmm t = false := by simp [truthyRev, hdg]
        simp only [hdg, ht, ite_true]
        rw [ih]
        simp
      · have ht : truthyRev rmm t = true := by simp [truthyRev, hdg, hs]
        simp only [hdg, ht, if_neg hs]
        rw [List.length_cons, ih]
        simp

/-- C6: for every score vector and nonnegative top_k, the top list has
exactly min(top_k, num_items) entries — so top_k larger than the item count
yields at most num_items entries, with no error (the functions are total) —
and the built recommendation list has length at most top_k and at most
num_items: exactly the top indices whose reverse-mapping entry exists and is
truthy survive, the others are silently skipped. -/
theorem scorer_output_bounds (scores : List ℚ) (rmm : List (Nat × String)) (k : Int)
    (hk : 0 ≤ k) :
    (top_indices scores k).length = min k.toNat scores.length ∧
    (build_recs rmm scores (top_indices scores k)).length ≤ k.toNat ∧
    (build_recs rmm scores (top_indices scores k)).length ≤ scores.length ∧
    (build_recs rmm scores (top_indices scores k)).length =
      (top_indices scores k).countP (truthyRev rmm) := by
  have hlen : (top_indices scores k).length = min k.toNat scores.length := by
    unfold top_indices argsort
    rw [pyTake_of_nonneg _ k hk, List.length_take, List.length_reverse, List.length_map,
      (sortPairs_perm _).length_eq, enumFromQ_length]
  have hcount := build_recs_length_eq_countP rmm scores (top_indices scores k)
  have hle : (build_recs rmm scores (top_indices scores k)).length ≤
      (top_indices scores k).length := by
    rw [hcount]
    exact List.countP_le_length _
  refine ⟨hlen, ?_, ?_, hcount⟩
  · refine hle.trans ?_
    rw [hlen]
    exact Nat.min_le_left _ _
  · refine hle.trans ?_
    rw [hlen]
    exact Nat.min_le_right _ _

/-- Witness for C6: three items, top_k = 5 > num_items, one item (index 1)
with no reverse entry: the top list has 3 entries and the built list 2. -/
theorem scorer_output_bounds_witness :
    (0 : Int) ≤ 5 ∧
    (top_indices [(1 : ℚ), 2, 3] 5).length = min (5 : Int).toNat 3 ∧
    (build_recs [(0, "m0"), (2, "m2")] [(1 : ℚ), 2, 3] (top_indices [(1 : ℚ), 2, 3] 5)).length ≤
      (5 : Int).toNat ∧
    (build_recs [(0, "m0"), (2, "m2")] [(1 : ℚ), 2, 3] (top_indices [(1 : ℚ), 2, 3] 5)).length ≤ 3 ∧
    (build_recs [(0, "m0"), (2, "m2")] [(1 : ℚ), 2, 3] (top_indices [(1 : ℚ), 2, 3] 5)).length =
      (top_indices [(1 : ℚ), 2, 3] 5).countP (truthyRev [(0, "m0"), (2, "m2")]) :=
  ⟨by decide,
    (scorer_output_bounds [(1 : ℚ), 2, 3] [(0, "m0"), (2, "m2")] 5 (by decide)).1,
    (scorer_output_bounds [(1 : ℚ), 2, 3] [(0, "m0"), (2, "m2")] 5 (by decide)).2.1,
    (scorer_output_bounds [(1 : ℚ), 2, 3] [(0, "m0"), (2, "m2")] 5 (by decide)).2.2.1,
    (scorer_output_bounds [(1 : ℚ), 2, 3] [(0, "m0"), (2, "m2")] 5 (by decide)).2.2.2⟩
